import Mathlib

/-!
Verification of the Gomoku game core (`src/gomoku/gomoku/src/main.rs`).

The board is the `board_data : [[u8; 15]; 15]` field of `AppUI`: black
stones are `1`, white stones are `2`, empty cells are `0`.  We embed it
as a total function `Nat → Nat → Nat`; every source function only ever
reads indices in `[0,15)` (guarded exactly as the Rust code guards
them), so values outside that range never matter.
-/

namespace Gomoku

/-- A board: `b x y` is the cell content (`0` empty, `1` black, `2` white).
Mirrors `board_data[x][y]`. -/
def Board : Type := Nat → Nat → Nat

/-- `updateBoard b x y v` is `b` with `board_data[x][y] = v`. -/
def updateBoard (b : Board) (x y v : Nat) : Board :=
  fun x' y' => if x' = x ∧ y' = y then v else b x' y'

/-- Semantics of the four bounded `for i in 1..5 { if ¬p i { break }; count += 1 }`
loops of `check_winner`: the length of the maximal prefix of `p 1, p 2, p 3, p 4`
that is all `true`, written out as the nested conditionals the loop unrolls to. -/
def consecCount (p : Nat → Bool) : Nat :=
  if p 1 then (if p 2 then (if p 3 then (if p 4 then 4 else 3) else 2) else 1) else 0

/-- Horizontal axis count of `check_winner`: the placed stone plus the two
directional scans along `x - i` and `x + i` (source lines 249-260). -/
def countH (b : Board) (x y : Nat) : Nat :=
  1 + consecCount (fun i => decide (i ≤ x) && decide (b (x - i) y = b x y))
    + consecCount (fun i => decide (x + i ≤ 14) && decide (b (x + i) y = b x y))

/-- Vertical axis count of `check_winner` (source lines 268-279). -/
def countV (b : Board) (x y : Nat) : Nat :=
  1 + consecCount (fun i => decide (i ≤ y) && decide (b x (y - i) = b x y))
    + consecCount (fun i => decide (y + i ≤ 14) && decide (b x (y + i) = b x y))

/-- Main-diagonal axis count of `check_winner` (source lines 287-298). -/
def countD (b : Board) (x y : Nat) : Nat :=
  1 + consecCount (fun i =>
        decide (i ≤ x) && decide (i ≤ y) && decide (b (x - i) (y - i) = b x y))
    + consecCount (fun i =>
        decide (x + i ≤ 14) && decide (y + i ≤ 14) && decide (b (x + i) (y + i) = b x y))

/-- Anti-diagonal axis count of `check_winner` (source lines 307-319). -/
def countA (b : Board) (x y : Nat) : Nat :=
  1 + consecCount (fun i =>
        decide (i ≤ x) && decide (y + i ≤ 14) && decide (b (x - i) (y + i) = b x y))
    + consecCount (fun i =>
        decide (x + i ≤ 14) && decide (i ≤ y) && decide (b (x + i) (y - i) = b x y))

/-- `check_winner(&self, x, y)`: the placement at `(x,y)` wins iff one of the
four axis counts reaches 5; each count is computed independently and the
function returns early at the first axis that reaches 5. -/
def check_winner (b : Board) (x y : Nat) : Bool :=
  if 5 ≤ countH b x y then true
  else if 5 ≤ countV b x y then true
  else if 5 ≤ countD b x y then true
  else decide (5 ≤ countA b x y)

/-- Spec-side: `(p,q)` is an in-range board position holding color `c`. -/
def cellEq (b : Board) (p q : Int) (c : Nat) : Prop :=
  0 ≤ p ∧ p < 15 ∧ 0 ≤ q ∧ q < 15 ∧ b p.toNat q.toNat = c

instance (b : Board) (p q : Int) (c : Nat) : Decidable (cellEq b p q c) := by
  unfold cellEq; infer_instance

/-- Spec-side: some window of 5 consecutive cells along the axis `(dx,dy)`
contains `(x,y)` (at index `k` inside the window) and is entirely of the
color of `(x,y)`.  This is exactly the existence of a run of ≥ 5 identical
consecutive cells of that color passing through `(x,y)` along this axis:
any run of length ≥ 5 through the cell contains such a window, and such a
window is itself such a run. -/
def runWindow (b : Board) (x y : Nat) (dx dy : Int) : Prop :=
  ∃ k : Fin 5, ∀ j : Fin 5,
    cellEq b ((x : Int) + ((j : Int) - (k : Int)) * dx)
             ((y : Int) + ((j : Int) - (k : Int)) * dy) (b x y)

instance (b : Board) (x y : Nat) (dx dy : Int) : Decidable (runWindow b x y dx dy) := by
  unfold runWindow; infer_instance

/-- Spec-side disjunction over the four axes: horizontal, vertical,
diagonal (↘) and anti-diagonal (↙). -/
def hasFiveThrough (b : Board) (x y : Nat) : Prop :=
  runWindow b x y 1 0 ∨ runWindow b x y 0 1 ∨ runWindow b x y 1 1 ∨ runWindow b x y 1 (-1)

instance (b : Board) (x y : Nat) : Decidable (hasFiveThrough b x y) := by
  unfold hasFiveThrough; infer_instance

lemma consecCount_spec (p : Nat → Bool) :
    (∀ i, 1 ≤ i → i ≤ consecCount p → p i = true) ∧ consecCount p ≤ 4 ∧
      (consecCount p = 4 ∨ p (consecCount p + 1) = false) := by
  unfold consecCount
  by_cases g1 : p 1
  · by_cases g2 : p 2
    · by_cases g3 : p 3
      · by_cases g4 : p 4
        · rw [if_pos g1, if_pos g2, if_pos g3, if_pos g4]
          exact ⟨fun i h1 h2 => by interval_cases i <;> assumption, by omega, Or.inl rfl⟩
        · rw [Bool.not_eq_true] at g4
          rw [if_pos g1, if_pos g2, if_pos g3, if_neg (by simp [g4])]
          exact ⟨fun i h1 h2 => by interval_cases i <;> assumption, by omega, Or.inr g4⟩
      · rw [Bool.not_eq_true] at g3
        rw [if_pos g1, if_pos g2, if_neg (by simp [g3])]
        exact ⟨fun i h1 h2 => by interval_cases i <;> assumption, by omega, Or.inr g3⟩
    · rw [Bool.not_eq_true] at g2
      rw [if_pos g1, if_neg (by simp [g2])]
      exact ⟨fun i h1 h2 => by interval_cases i; assumption, by omega, Or.inr g2⟩
  · rw [Bool.not_eq_true] at g1
    rw [if_neg (by simp [g1])]
    exact ⟨fun i h1 h2 => by omega, by omega, Or.inr g1⟩

lemma consecCount_le_four (p : Nat → Bool) : consecCount p ≤ 4 :=
  (consecCount_spec p).2.1

lemma consecCount_true (p : Nat → Bool) (i : Nat) (h1 : 1 ≤ i)
    (h2 : i ≤ consecCount p) : p i = true :=
  (consecCount_spec p).1 i h1 h2

lemma le_consecCount (p : Nat → Bool) (m : Nat) (hm : m ≤ 4)
    (h : ∀ i, 1 ≤ i → i ≤ m → p i = true) : m ≤ consecCount p := by
  by_contra hc
  push_neg at hc
  rcases (consecCount_spec p).2.2 with h4 | hf
  · omega
  · have := h (consecCount p + 1) (by omega) (by omega)
    rw [this] at hf
    exact Bool.noConfusion hf

/-- Generic axis argument: a pair of outward scans reaches a combined count of
5 iff some all-good 5-window (in the abstract cell predicate `C`, indexed by
the signed offset from the placed cell) contains offset 0. -/
lemma axis_iff (gN gP : Nat → Bool) (C : Int → Prop)
    (h0 : C 0)
    (hN : ∀ i : Nat, 1 ≤ i → i ≤ 4 → (gN i = true ↔ C (-(i : Int))))
    (hP : ∀ i : Nat, 1 ≤ i → i ≤ 4 → (gP i = true ↔ C (i : Int))) :
    (5 ≤ 1 + consecCount gN + consecCount gP) ↔
      ∃ k : Fin 5, ∀ j : Fin 5, C ((j : Int) - (k : Int)) := by
  constructor
  · intro h
    have ha : consecCount gN ≤ 4 := consecCount_le_four gN
    have hb : consecCount gP ≤ 4 := consecCount_le_four gP
    refine ⟨⟨consecCount gN, by omega⟩, ?_⟩
    intro j
    rcases lt_trichotomy (j : Nat) (consecCount gN) with hlt | heq | hgt
    · -- negative offset: covered by the negative-direction scan
      have hi : gN ((consecCount gN) - (j : Nat)) = true :=
        consecCount_true gN _ (by omega) (by omega)
      have hC := (hN ((consecCount gN) - (j : Nat)) (by omega) (by omega)).mp hi
      have he : -(((consecCount gN) - (j : Nat) : Nat) : Int)
          = (j : Int) - ((⟨consecCount gN, by omega⟩ : Fin 5) : Int) := by
        simp only [Fin.val_mk]
        omega
      rwa [he] at hC
    · have he : ((j : Int) - ((⟨consecCount gN, by omega⟩ : Fin 5) : Int)) = 0 := by
        simp only [Fin.val_mk]
        omega
      rwa [he]
    · -- positive offset: covered by the positive-direction scan
      have hj4 : (j : Nat) ≤ 4 := by omega
      have hi : gP ((j : Nat) - consecCount gN) = true := by
        apply consecCount_true gP _ (by omega)
        omega
      have hC := (hP ((j : Nat) - consecCount gN) (by omega) (by omega)).mp hi
      have he : ((((j : Nat) - consecCount gN : Nat)) : Int)
          = (j : Int) - ((⟨consecCount gN, by omega⟩ : Fin 5) : Int) := by
        simp only [Fin.val_mk]
        omega
      rwa [he] at hC
  · rintro ⟨k, hk⟩
    have hkN : (k : Nat) ≤ consecCount gN := by
      apply le_consecCount gN _ (by omega)
      intro i hi1 hik
      apply (hN i hi1 (by omega)).mpr
      have := hk ⟨(k : Nat) - i, by omega⟩
      have he : ((((k : Nat) - i : Nat) : Int) - (k : Int)) = -(i : Int) := by
        omega
      simpa [he] using this
    have hkP : 4 - (k : Nat) ≤ consecCount gP := by
      apply le_consecCount gP _ (by omega)
      intro i hi1 hik
      apply (hP i hi1 (by omega)).mpr
      have := hk ⟨(k : Nat) + i, by omega⟩
      have he : ((((k : Nat) + i : Nat) : Int) - (k : Int)) = (i : Int) := by
        omega
      simpa [he] using this
    have := k.isLt
    omega

lemma axisH (b : Board) (x y : Nat) (hx : x ≤ 14) (hy : y ≤ 14) :
    5 ≤ countH b x y ↔ runWindow b x y 1 0 := by
  unfold countH runWindow
  simp only [mul_one, mul_zero, add_zero]
  apply axis_iff _ _ (fun o : Int => cellEq b ((x : Int) + o) (y : Int) (b x y))
  · refine ⟨by omega, by omega, by omega, by omega, ?_⟩
    have e1 : ((x : Int) + 0).toNat = x := by omega
    have e2 : ((y : Int)).toNat = y := by omega
    rw [e1, e2]
  · intro i h1 h4
    simp only [Bool.and_eq_true, decide_eq_true_eq]
    unfold cellEq
    have e1 : ((x : Int) + -(i : Int)).toNat = x - i := by omega
    have e2 : ((y : Int)).toNat = y := by omega
    rw [e1, e2]
    constructor
    · rintro ⟨hix, hb⟩
      exact ⟨by omega, by omega, by omega, by omega, hb⟩
    · rintro ⟨c1, c2, c3, c4, hb⟩
      exact ⟨by omega, hb⟩
  · intro i h1 h4
    simp only [Bool.and_eq_true, decide_eq_true_eq]
    unfold cellEq
    have e1 : ((x : Int) + (i : Int)).toNat = x + i := by omega
    have e2 : ((y : Int)).toNat = y := by omega
    rw [e1, e2]
    constructor
    · rintro ⟨hix, hb⟩
      exact ⟨by omega, by omega, by omega, by omega, hb⟩
    · rintro ⟨c1, c2, c3, c4, hb⟩
      exact ⟨by omega, hb⟩

lemma axisV (b : Board) (x y : Nat) (hx : x ≤ 14) (hy : y ≤ 14) :
    5 ≤ countV b x y ↔ runWindow b x y 0 1 := by
  unfold countV runWindow
  simp only [mul_one, mul_zero, add_zero]
  apply axis_iff _ _ (fun o : Int => cellEq b (x : Int) ((y : Int) + o) (b x y))
  · refine ⟨by omega, by omega, by omega, by omega, ?_⟩
    have e1 : ((x : Int)).toNat = x := by omega
    have e2 : ((y : Int) + 0).toNat = y := by omega
    rw [e1, e2]
  · intro i h1 h4
    simp only [Bool.and_eq_true, decide_eq_true_eq]
    unfold cellEq
    have e1 : ((x : Int)).toNat = x := by omega
    have e2 : ((y : Int) + -(i : Int)).toNat = y - i := by omega
    rw [e1, e2]
    constructor
    · rintro ⟨hiy, hb⟩
      exact ⟨by omega, by omega, by omega, by omega, hb⟩
    · rintro ⟨c1, c2, c3, c4, hb⟩
      exact ⟨by omega, hb⟩
  · intro i h1 h4
    simp only [Bool.and_eq_true, decide_eq_true_eq]
    unfold cellEq
    have e1 : ((x : Int)).toNat = x := by omega
    have e2 : ((y : Int) + (i : Int)).toNat = y + i := by omega
    rw [e1, e2]
    constructor
    · rintro ⟨hiy, hb⟩
      exact ⟨by omega, by omega, by omega, by omega, hb⟩
    · rintro ⟨c1, c2, c3, c4, hb⟩
      exact ⟨by omega, hb⟩

lemma axisD (b : Board) (x y : Nat) (hx : x ≤ 14) (hy : y ≤ 14) :
    5 ≤ countD b x y ↔ runWindow b x y 1 1 := by
  unfold countD runWindow
  simp only [mul_one]
  apply axis_iff _ _ (fun o : Int => cellEq b ((x : Int) + o) ((y : Int) + o) (b x y))
  · refine ⟨by omega, by omega, by omega, by omega, ?_⟩
    have e1 : ((x : Int) + 0).toNat = x := by omega
    have e2 : ((y : Int) + 0).toNat = y := by omega
    rw [e1, e2]
  · intro i h1 h4
    simp only [Bool.and_eq_true, decide_eq_true_eq]
    unfold cellEq
    have e1 : ((x : Int) + -(i : Int)).toNat = x - i := by omega
    have e2 : ((y : Int) + -(i : Int)).toNat = y - i := by omega
    rw [e1, e2]
    constructor
    · rintro ⟨⟨hix, hiy⟩, hb⟩
      exact ⟨by omega, by omega, by omega, by omega, hb⟩
    · rintro ⟨c1, c2, c3, c4, hb⟩
      exact ⟨⟨by omega, by omega⟩, hb⟩
  · intro i h1 h4
    simp only [Bool.and_eq_true, decide_eq_true_eq]
    unfold cellEq
    have e1 : ((x : Int) + (i : Int)).toNat = x + i := by omega
    have e2 : ((y : Int) + (i : Int)).toNat = y + i := by omega
    rw [e1, e2]
    constructor
    · rintro ⟨⟨hix, hiy⟩, hb⟩
      exact ⟨by omega, by omega, by omega, by omega, hb⟩
    · rintro ⟨c1, c2, c3, c4, hb⟩
      exact ⟨⟨by omega, by omega⟩, hb⟩

lemma axisA (b : Board) (x y : Nat) (hx : x ≤ 14) (hy : y ≤ 14) :
    5 ≤ countA b x y ↔ runWindow b x y 1 (-1) := by
  unfold countA runWindow
  simp only [mul_one, mul_neg_one]
  apply axis_iff _ _ (fun o : Int => cellEq b ((x : Int) + o) ((y : Int) + -o) (b x y))
  · refine ⟨by omega, by omega, by omega, by omega, ?_⟩
    have e1 : ((x : Int) + 0).toNat = x := by omega
    have e2 : ((y : Int) + -(0 : Int)).toNat = y := by omega
    rw [e1, e2]
  · intro i h1 h4
    simp only [Bool.and_eq_true, decide_eq_true_eq]
    unfold cellEq
    have e1 : ((x : Int) + -(i : Int)).toNat = x - i := by omega
    have e2 : ((y : Int) + - -(i : Int)).toNat = y + i := by omega
    rw [e1, e2]
    constructor
    · rintro ⟨⟨hix, hiy⟩, hb⟩
      exact ⟨by omega, by omega, by omega, by omega, hb⟩
    · rintro ⟨c1, c2, c3, c4, hb⟩
      exact ⟨⟨by omega, by omega⟩, hb⟩
  · intro i h1 h4
    simp only [Bool.and_eq_true, decide_eq_true_eq]
    unfold cellEq
    have e1 : ((x : Int) + (i : Int)).toNat = x + i := by omega
    have e2 : ((y : Int) + -(i : Int)).toNat = y - i := by omega
    rw [e1, e2]
    constructor
    · rintro ⟨⟨hix, hiy⟩, hb⟩
      exact ⟨by omega, by omega, by omega, by omega, hb⟩
    · rintro ⟨c1, c2, c3, c4, hb⟩
      exact ⟨⟨by omega, by omega⟩, hb⟩

lemma check_winner_eq_axes (b : Board) (x y : Nat) :
    check_winner b x y = true ↔
      5 ≤ countH b x y ∨ 5 ≤ countV b x y ∨ 5 ≤ countD b x y ∨ 5 ≤ countA b x y := by
  unfold check_winner
  split_ifs with h1 h2 h3
  · simp [h1]
  · simp [h2]
  · simp [h3]
  · rw [decide_eq_true_eq]
    constructor
    · intro h
      exact Or.inr (Or.inr (Or.inr h))
    · rintro (h | h | h | h) <;> omega

/-- C1: `check_winner(board, row, col)` on an occupied cell returns `true` iff
some single axis among horizontal, vertical, diagonal and anti-diagonal
contains a run of at least 5 consecutive cells of that cell's color passing
through `(row,col)`; the axes are combined by logical OR and no length is
accumulated across different axes. -/
theorem check_winner_iff_hasFiveThrough (b : Board) (x y : Nat)
    (hx : x ≤ 14) (hy : y ≤ 14) (_hocc : b x y ≠ 0) :
    check_winner b x y = true ↔ hasFiveThrough b x y := by
  rw [check_winner_eq_axes, hasFiveThrough,
    axisH b x y hx hy, axisV b x y hx hy, axisD b x y hx hy, axisA b x y hx hy]

/-- Witness board for C1: five consecutive black stones at
`board_data[0..4][0]`, the last one placed at `(2,0)`. -/
def c1Board : Board :=
  fun x y => if y = 0 ∧ x ≤ 4 then 1 else 0

theorem check_winner_iff_hasFiveThrough_witness :
    check_winner c1Board 2 0 = true ↔ hasFiveThrough c1Board 2 0 :=
  check_winner_iff_hasFiveThrough c1Board 2 0 (by decide) (by decide) (by decide)

/-!
## The move evaluator (`find_best_move` / `evaluate_position` / `evaluate_direction`)

The Rust scan computes `nx = (x as i32 + dx * i) as usize`; a negative
`i32` cast to `usize` yields a value far above 15, so the source guard
`nx >= 15 || ny >= 15` is equivalent to the signed position being
outside `[0,15)`, which is how we render it.
-/

/-- One `for i in 1..5` scan loop of `evaluate_direction` (source lines
438-455 resp. 458-475), as a fuel recursion starting at step `i`:
returns the `(count, blocked)` contribution of this loop. -/
def dirScanAux (b : Board) (x y dx dy : Int) (piece : Nat) (i : Nat) : Nat → Nat × Nat
  | 0 => (0, 0)
  | f + 1 =>
    let nx := x + dx * (i : Int)
    let ny := y + dy * (i : Int)
    if nx < 0 ∨ 15 ≤ nx ∨ ny < 0 ∨ 15 ≤ ny then (0, 1)
    else if b nx.toNat ny.toNat = piece then
      let r := dirScanAux b x y dx dy piece (i + 1) f
      (r.1 + 1, r.2)
    else if b nx.toNat ny.toNat = 0 then (0, 0)
    else (0, 1)

/-- A full one-direction scan: steps `i = 1, 2, 3, 4`. -/
def dirScan (b : Board) (x y : Nat) (dx dy : Int) (piece : Nat) : Nat × Nat :=
  dirScanAux b (x : Int) (y : Int) dx dy piece 1 4

/-- The `count` accumulated by `evaluate_direction` over both scan loops
(the second loop runs along `(-dx, -dy)`). -/
def dirCount (b : Board) (x y : Nat) (dx dy : Int) (piece : Nat) : Nat :=
  (dirScan b x y dx dy piece).1 + (dirScan b x y (-dx) (-dy) piece).1

/-- The `blocked` count accumulated by `evaluate_direction` over both scan loops. -/
def dirBlocked (b : Board) (x y : Nat) (dx dy : Int) (piece : Nat) : Nat :=
  (dirScan b x y dx dy piece).2 + (dirScan b x y (-dx) (-dy) piece).2

/-- The final `match count` of `evaluate_direction` (source lines 478-484). -/
def direction_score (count blocked : Nat) : Int :=
  match count with
  | 4 => 10000
  | 3 => if blocked = 0 then 1000 else 100
  | 2 => if blocked = 0 then 100 else 10
  | 1 => if blocked = 0 then 10 else 1
  | _ => 0

/-- `evaluate_direction(&self, x, y, dx, dy, piece)`. -/
def evaluate_direction (b : Board) (x y : Nat) (dx dy : Int) (piece : Nat) : Int :=
  direction_score (dirCount b x y dx dy piece) (dirBlocked b x y dx dy piece)

/-- The `directions` array of `evaluate_position`. -/
def directions : List (Int × Int) := [(1, 0), (0, 1), (1, 1), (1, -1)]

/-- The directional part of `evaluate_position`: the loop accumulating
`evaluate_direction(..) * 10` for the AI piece and `* 8` for the player piece
over the four directions. -/
def line_score (b : Board) (x y : Nat) (ai_piece player_piece : Nat) : Int :=
  directions.foldl
    (fun s d => s + evaluate_direction b x y d.1 d.2 ai_piece * 10
                  + evaluate_direction b x y d.1 d.2 player_piece * 8) 0

/-- The `center_distance` bonus of `evaluate_position` (source lines 426-427):
`(14 - center_distance) * 2`. -/
def centerBonus (x y : Nat) : Int :=
  (14 - (|(x : Int) - 7| + |(y : Int) - 7|)) * 2

/-- `evaluate_position(&self, x, y, ai_piece, player_piece)`. -/
def evaluate_position (b : Board) (x y : Nat) (ai_piece player_piece : Nat) : Int :=
  line_score b x y ai_piece player_piece + centerBonus x y

/-- The row-major traversal order of `find_best_move`: `x` in `0..15`
outer, `y` in `0..15` inner. -/
def allCells : List (Nat × Nat) :=
  (List.range 15).flatMap (fun x => (List.range 15).map (fun y => (x, y)))

/-- One step of `find_best_move`'s accumulation: the running
`(best_score, best_move)` is replaced when the cell is empty and its score
strictly exceeds the running best. -/
def bestStep (b : Board) (ai_piece player_piece : Nat)
    (acc : Int × Nat × Nat) (c : Nat × Nat) : Int × Nat × Nat :=
  if b c.1 c.2 = 0 then
    if acc.1 < evaluate_position b c.1 c.2 ai_piece player_piece then
      (evaluate_position b c.1 c.2 ai_piece player_piece, c)
    else acc
  else acc

/-- `find_best_move(&self)`, with the two pieces abstracted as arguments:
scans all cells starting from `best_score = -1000`, `best_move = (7,7)`. -/
def find_best_move (b : Board) (ai_piece player_piece : Nat) : Nat × Nat :=
  (allCells.foldl (bestStep b ai_piece player_piece) (-1000, 7, 7)).2

/-- Spec-side point table, written from the spec's words: count==4 → 10000;
count==3 → 1000 if no end is blocked else 100; count==2 → 100 / 10;
count==1 → 10 / 1; count==0 → 0. -/
def spec_point (count blocked : Nat) : Int :=
  if count = 4 then 10000
  else if count = 3 then (if blocked = 0 then 1000 else 100)
  else if count = 2 then (if blocked = 0 then 100 else 10)
  else if count = 1 then (if blocked = 0 then 10 else 1)
  else 0

lemma direction_score_eq_spec_point (c bl : Nat) :
    direction_score c bl = spec_point c bl := by
  unfold direction_score spec_point
  rcases c with _ | _ | _ | _ | _ | c <;> simp

/-- C3: the line score of a candidate cell is the sum over the four axes of
10 × the computer side's directional point value plus 8 × the opponent side's
directional point value, each point value given by the count/blocked table of
the spec. -/
theorem line_score_eq_spec (b : Board) (x y comp opp : Nat) :
    line_score b x y comp opp =
      (10 * spec_point (dirCount b x y 1 0 comp) (dirBlocked b x y 1 0 comp)
        + 8 * spec_point (dirCount b x y 1 0 opp) (dirBlocked b x y 1 0 opp))
      + (10 * spec_point (dirCount b x y 0 1 comp) (dirBlocked b x y 0 1 comp)
        + 8 * spec_point (dirCount b x y 0 1 opp) (dirBlocked b x y 0 1 opp))
      + (10 * spec_point (dirCount b x y 1 1 comp) (dirBlocked b x y 1 1 comp)
        + 8 * spec_point (dirCount b x y 1 1 opp) (dirBlocked b x y 1 1 opp))
      + (10 * spec_point (dirCount b x y 1 (-1) comp) (dirBlocked b x y 1 (-1) comp)
        + 8 * spec_point (dirCount b x y 1 (-1) opp) (dirBlocked b x y 1 (-1) opp)) := by
  unfold line_score directions evaluate_direction
  simp [List.foldl, direction_score_eq_spec_point]
  ring

/-- The formula claimed for the centrality bonus:
`(2·(N-1) - (|row - center| + |col - center|)) × 2` with `N = 15`, center 7. -/
def claimedCenterBonus (x y : Nat) : Int :=
  (2 * (15 - 1) - (|(x : Int) - 7| + |(y : Int) - 7|)) * 2

/-- C4 counterexample: at the center cell `(7,7)` of an empty board the
score actually added is 28 (all directional scores vanish there), while the
claimed formula gives 56. -/
theorem centerBonus_counterexample :
    evaluate_position (fun _ _ => 0) 7 7 1 2 = 28 ∧ claimedCenterBonus 7 7 = 56 := by
  constructor
  · decide
  · decide

lemma dirScanAux_zero (x y dx dy : Int) (p : Nat) (hp : p ≠ 0) (i f : Nat) :
    (dirScanAux (fun _ _ => 0) x y dx dy p i f).1 = 0 := by
  cases f with
  | zero => rfl
  | succ f =>
    unfold dirScanAux
    by_cases hb : x + dx * (i : Int) < 0 ∨ 15 ≤ x + dx * (i : Int) ∨
        y + dy * (i : Int) < 0 ∨ 15 ≤ y + dy * (i : Int)
    · simp [hb]
    · simp [hb, Ne.symm hp]

/-- C4 amended: the centrality bonus added by `evaluate_position` is
`(N-1 - (|row-7| + |col-7|)) × 2 = (14 - manhattan) × 2`, not
`(2·(N-1) - manhattan) × 2`; demonstrated on the empty board, where every
directional contribution is 0 and the whole score is the bonus. -/
theorem evaluate_position_empty_board (x y ai pl : Nat) (hai : ai ≠ 0) (hpl : pl ≠ 0) :
    evaluate_position (fun _ _ => 0) x y ai pl
      = (14 - (|(x : Int) - 7| + |(y : Int) - 7|)) * 2 := by
  have hz : ∀ (dx dy : Int) (p : Nat), p ≠ 0 →
      evaluate_direction (fun _ _ => 0) x y dx dy p = 0 := by
    intro dx dy p hp
    unfold evaluate_direction dirCount dirScan
    rw [dirScanAux_zero _ _ _ _ _ hp, dirScanAux_zero _ _ _ _ _ hp]
    rfl
  unfold evaluate_position line_score directions centerBonus
  simp [List.foldl, hz 1 0 ai hai, hz 0 1 ai hai, hz 1 1 ai hai, hz 1 (-1) ai hai,
    hz 1 0 pl hpl, hz 0 1 pl hpl, hz 1 1 pl hpl, hz 1 (-1) pl hpl]

theorem evaluate_position_empty_board_witness :
    evaluate_position (fun _ _ => 0) 0 0 1 2 = (14 - (|(0 : Int) - 7| + |(0 : Int) - 7|)) * 2 :=
  evaluate_position_empty_board 0 0 1 2 (by decide) (by decide)

/-- C10: a directional scan-count strictly above 4 (an overline of six or
more) scores 0, strictly below the 10000 awarded for count exactly 4. -/
theorem evaluate_direction_overline (b : Board) (x y : Nat) (dx dy : Int) (piece : Nat) :
    (4 < dirCount b x y dx dy piece → evaluate_direction b x y dx dy piece = 0)
    ∧ (dirCount b x y dx dy piece = 4 → evaluate_direction b x y dx dy piece = 10000)
    ∧ (0 : Int) < 10000 := by
  refine ⟨fun h => ?_, fun h => ?_, by norm_num⟩
  · obtain ⟨m, hm⟩ : ∃ m, dirCount b x y dx dy piece = m + 5 :=
      ⟨dirCount b x y dx dy piece - 5, by omega⟩
    unfold evaluate_direction
    rw [hm]
    rfl
  · unfold evaluate_direction
    rw [h]
    rfl

/-- Witness board for C10: black stones on column 0 at rows 0-9 except row 5;
evaluating the empty cell `(5,0)` horizontally for black finds 4 + 4 = 8 > 4
contiguous stones, and the direction scores 0. -/
def c10Board : Board :=
  fun x y => if y = 0 ∧ x ≤ 9 ∧ x ≠ 5 then 1 else 0

theorem evaluate_direction_overline_witness :
    evaluate_direction c10Board 5 0 1 0 1 = 0 :=
  (evaluate_direction_overline c10Board 5 0 1 0 1).1 (by decide)

lemma foldl_bestStep_no_empty (b : Board) (ai pl : Nat) (l : List (Nat × Nat))
    (acc : Int × Nat × Nat) (h : ∀ c ∈ l, b c.1 c.2 ≠ 0) :
    l.foldl (bestStep b ai pl) acc = acc := by
  induction l generalizing acc with
  | nil => rfl
  | cons c l ih =>
    rw [List.foldl_cons]
    have hc : b c.1 c.2 ≠ 0 := h c (List.mem_cons_self c l)
    have hs : bestStep b ai pl acc c = acc := by
      unfold bestStep
      rw [if_neg hc]
    rw [hs]
    exact ih _ (fun d hd => h d (List.mem_cons_of_mem _ hd))

/-- C9: on a board with no empty cell at all, `find_best_move` never updates
its initial `best_move` and returns the default `(7,7)` — even though that
cell is occupied. -/
theorem find_best_move_full (b : Board) (ai pl : Nat)
    (h : ∀ c ∈ allCells, b c.1 c.2 ≠ 0) : find_best_move b ai pl = (7, 7) := by
  unfold find_best_move
  rw [foldl_bestStep_no_empty b ai pl allCells _ h]

theorem find_best_move_full_witness : find_best_move (fun _ _ => 1) 2 1 = (7, 7) :=
  find_best_move_full (fun _ _ => 1) 2 1 (fun _ _ => Nat.one_ne_zero)

lemma direction_score_nonneg (c bl : Nat) : 0 ≤ direction_score c bl := by
  rw [direction_score_eq_spec_point]
  unfold spec_point
  split_ifs <;> norm_num

lemma evaluate_direction_nonneg (b : Board) (x y : Nat) (dx dy : Int) (p : Nat) :
    0 ≤ evaluate_direction b x y dx dy p :=
  direction_score_nonneg _ _

lemma line_score_nonneg (b : Board) (x y ai pl : Nat) : 0 ≤ line_score b x y ai pl := by
  unfold line_score
  have key : ∀ (l : List (Int × Int)) (s : Int), 0 ≤ s →
      0 ≤ l.foldl (fun s d => s + evaluate_direction b x y d.1 d.2 ai * 10
                    + evaluate_direction b x y d.1 d.2 pl * 8) s := by
    intro l
    induction l with
    | nil =>
      intro s hs
      simpa using hs
    | cons d l ih =>
      intro s hs
      rw [List.foldl_cons]
      apply ih
      have n1 := evaluate_direction_nonneg b x y d.1 d.2 ai
      have n2 := evaluate_direction_nonneg b x y d.1 d.2 pl
      linarith
  exact key directions 0 le_rfl

lemma centerBonus_nonneg (x y : Nat) (hx : x ≤ 14) (hy : y ≤ 14) :
    0 ≤ centerBonus x y := by
  unfold centerBonus
  have h1 : |(x : Int) - 7| ≤ 7 := abs_le.mpr ⟨by omega, by omega⟩
  have h2 : |(y : Int) - 7| ≤ 7 := abs_le.mpr ⟨by omega, by omega⟩
  linarith

lemma evaluate_position_nonneg (b : Board) (x y ai pl : Nat)
    (hx : x ≤ 14) (hy : y ≤ 14) : 0 ≤ evaluate_position b x y ai pl := by
  unfold evaluate_position
  have h1 := line_score_nonneg b x y ai pl
  have h2 := centerBonus_nonneg x y hx hy
  linarith

lemma mem_allCells_bounds (c : Nat × Nat) (h : c ∈ allCells) :
    c.1 ≤ 14 ∧ c.2 ≤ 14 := by
  unfold allCells at h
  simp only [List.mem_flatMap, List.mem_map, List.mem_range] at h
  obtain ⟨x, hx, y, hy, rfl⟩ := h
  exact ⟨by omega, by omega⟩

/-- Invariant of `find_best_move`'s scan: either no empty cell of the list
beats the incoming accumulator and the fold returns it unchanged, or the fold
returns the first cell that attains the (strict) maximum score among the
empty cells beating the accumulator. -/
lemma foldl_bestStep_char (b : Board) (ai pl : Nat) :
    ∀ (l : List (Nat × Nat)) (acc : Int × Nat × Nat),
      (l.foldl (bestStep b ai pl) acc = acc ∧
        ∀ c ∈ l, b c.1 c.2 = 0 → evaluate_position b c.1 c.2 ai pl ≤ acc.1) ∨
      (∃ l1 l2,
        l = l1 ++ (l.foldl (bestStep b ai pl) acc).2 :: l2 ∧
        b (l.foldl (bestStep b ai pl) acc).2.1 (l.foldl (bestStep b ai pl) acc).2.2 = 0 ∧
        (l.foldl (bestStep b ai pl) acc).1
          = evaluate_position b (l.foldl (bestStep b ai pl) acc).2.1
              (l.foldl (bestStep b ai pl) acc).2.2 ai pl ∧
        acc.1 < (l.foldl (bestStep b ai pl) acc).1 ∧
        (∀ c ∈ l1, b c.1 c.2 = 0 →
          evaluate_position b c.1 c.2 ai pl < (l.foldl (bestStep b ai pl) acc).1) ∧
        (∀ c ∈ l2, b c.1 c.2 = 0 →
          evaluate_position b c.1 c.2 ai pl ≤ (l.foldl (bestStep b ai pl) acc).1)) := by
  intro l
  induction l with
  | nil =>
    intro acc
    left
    exact ⟨rfl, by simp⟩
  | cons d l ih =>
    intro acc
    rw [List.foldl_cons]
    by_cases hd : b d.1 d.2 = 0
    · by_cases hbeat : acc.1 < evaluate_position b d.1 d.2 ai pl
      · have hstep : bestStep b ai pl acc d = (evaluate_position b d.1 d.2 ai pl, d) := by
          unfold bestStep
          rw [if_pos hd, if_pos hbeat]
        rw [hstep]
        rcases ih (evaluate_position b d.1 d.2 ai pl, d) with
          ⟨heq, hall⟩ | ⟨l1, l2, hsplit, hemp, hsc, hlt, hl1, hl2⟩
        · right
          refine ⟨[], l, ?_, ?_, ?_, ?_, ?_, ?_⟩
          · rw [heq]
            simp
          · rw [heq]
            exact hd
          · rw [heq]
          · rw [heq]
            exact hbeat
          · intro c hc hce
            simp at hc
          · intro c hc hce
            have := hall c hc hce
            rwa [heq]
        · right
          refine ⟨d :: l1, l2, ?_, hemp, hsc, ?_, ?_, hl2⟩
          · conv_lhs => rw [hsplit]
            simp
          · exact lt_trans hbeat hlt
          · intro c hc hce
            rcases List.mem_cons.mp hc with rfl | hc'
            · exact hlt
            · exact hl1 c hc' hce
      · have hstep : bestStep b ai pl acc d = acc := by
          unfold bestStep
          rw [if_pos hd, if_neg hbeat]
        rw [hstep]
        push_neg at hbeat
        rcases ih acc with ⟨heq, hall⟩ | ⟨l1, l2, hsplit, hemp, hsc, hlt, hl1, hl2⟩
        · left
          refine ⟨heq, ?_⟩
          intro c hc hce
          rcases List.mem_cons.mp hc with rfl | hc'
          · exact hbeat
          · exact hall c hc' hce
        · right
          refine ⟨d :: l1, l2, ?_, hemp, hsc, hlt, ?_, hl2⟩
          · conv_lhs => rw [hsplit]
            simp
          · intro c hc hce
            rcases List.mem_cons.mp hc with rfl | hc'
            · exact lt_of_le_of_lt hbeat hlt
            · exact hl1 c hc' hce
    · have hstep : bestStep b ai pl acc d = acc := by
        unfold bestStep
        rw [if_neg hd]
      rw [hstep]
      rcases ih acc with ⟨heq, hall⟩ | ⟨l1, l2, hsplit, hemp, hsc, hlt, hl1, hl2⟩
      · left
        refine ⟨heq, ?_⟩
        intro c hc hce
        rcases List.mem_cons.mp hc with rfl | hc'
        · exact absurd hce hd
        · exact hall c hc' hce
      · right
        refine ⟨d :: l1, l2, ?_, hemp, hsc, hlt, ?_, hl2⟩
        · conv_lhs => rw [hsplit]
          simp
        · intro c hc hce
          rcases List.mem_cons.mp hc with rfl | hc'
          · exact absurd hce hd
          · exact hl1 c hc' hce

/-- C5: on a board with at least one empty cell, `find_best_move` returns the
first empty cell, in the row-major scan order of `allCells`, whose score
attains the maximum over all empty cells: every earlier empty cell scores
strictly less and every later empty cell scores no more.  (Determinism is
immediate: `find_best_move` is a function of the board and the two pieces.) -/
theorem find_best_move_first_argmax (b : Board) (ai pl : Nat)
    (h : ∃ c ∈ allCells, b c.1 c.2 = 0) :
    ∃ l1 l2, allCells = l1 ++ find_best_move b ai pl :: l2
      ∧ b (find_best_move b ai pl).1 (find_best_move b ai pl).2 = 0
      ∧ (∀ c ∈ l1, b c.1 c.2 = 0 →
          evaluate_position b c.1 c.2 ai pl
            < evaluate_position b (find_best_move b ai pl).1 (find_best_move b ai pl).2 ai pl)
      ∧ (∀ c ∈ l2, b c.1 c.2 = 0 →
          evaluate_position b c.1 c.2 ai pl
            ≤ evaluate_position b (find_best_move b ai pl).1 (find_best_move b ai pl).2 ai pl) := by
  obtain ⟨c0, hc0mem, hc0⟩ := h
  rcases foldl_bestStep_char b ai pl allCells (-1000, 7, 7) with
    ⟨heq, hall⟩ | ⟨l1, l2, hsplit, hemp, hsc, hlt, hl1, hl2⟩
  · exfalso
    have hb : evaluate_position b c0.1 c0.2 ai pl ≤ -1000 := hall c0 hc0mem hc0
    obtain ⟨hb1, hb2⟩ := mem_allCells_bounds c0 hc0mem
    have hnn := evaluate_position_nonneg b c0.1 c0.2 ai pl hb1 hb2
    linarith
  · unfold find_best_move
    refine ⟨l1, l2, hsplit, hemp, ?_, ?_⟩
    · intro c hc hce
      have hlt' := hl1 c hc hce
      rwa [hsc] at hlt'
    · intro c hc hce
      have hle' := hl2 c hc hce
      rwa [hsc] at hle'

theorem find_best_move_first_argmax_witness :
    ∃ l1 l2, allCells = l1 ++ find_best_move (fun _ _ => 0) 2 1 :: l2
      ∧ (fun _ _ => (0 : Nat)) (find_best_move (fun _ _ => 0) 2 1).1
          (find_best_move (fun _ _ => 0) 2 1).2 = 0
      ∧ (∀ c ∈ l1, (fun _ _ => (0 : Nat)) c.1 c.2 = 0 →
          evaluate_position (fun _ _ => 0) c.1 c.2 2 1
            < evaluate_position (fun _ _ => 0) (find_best_move (fun _ _ => 0) 2 1).1
                (find_best_move (fun _ _ => 0) 2 1).2 2 1)
      ∧ (∀ c ∈ l2, (fun _ _ => (0 : Nat)) c.1 c.2 = 0 →
          evaluate_position (fun _ _ => 0) c.1 c.2 2 1
            ≤ evaluate_position (fun _ _ => 0) (find_best_move (fun _ _ => 0) 2 1).1
                (find_best_move (fun _ _ => 0) 2 1).2 2 1) :=
  find_best_move_first_argmax (fun _ _ => 0) 2 1 ⟨(0, 0), by decide, rfl⟩

/-!
## The turn state machine (`AppUI` game fields, `handle_click`, `ai_move`)

Only the game-state fields of `AppUI` are modelled (rendering fields such as
`start_point`, `frame` and the audio handle are presentation state the game
logic never reads).  The `f32` delay timer is modelled as a rational number;
`handle_click` is modelled at cell coordinates, after the presentation layer's
pixel-to-cell rounding.
-/

/-- The `GameMode` enum. -/
inductive GMode where
  | mainMenu : GMode
  | playerVsPlayer : GMode
  | playerVsAI : GMode
deriving DecidableEq

/-- The game-state fields of `AppUI`. -/
structure GameState where
  game_mode : GMode
  board_data : Board
  is_black : Bool
  is_winner : Bool
  player_is_black : Bool
  ai_thinking : Bool
  color_selected : Bool
  ai_delay_timer : ℚ
  ai_pending_move : Option (Nat × Nat)

/-- `Default::default()` for the game-state fields of `AppUI`. -/
def default_state : GameState where
  game_mode := GMode.mainMenu
  board_data := fun _ _ => 0
  is_black := true
  is_winner := false
  player_is_black := true
  ai_thinking := false
  color_selected := false
  ai_delay_timer := 0
  ai_pending_move := none

/-- `restart(&mut self)` (source lines 327-335): clears the board and all
turn/AI state; `game_mode` and `color_selected` are untouched. -/
def restart (st : GameState) : GameState :=
  { st with
    board_data := fun _ _ => 0
    is_black := true
    is_winner := false
    player_is_black := true
    ai_thinking := false
    ai_delay_timer := 0
    ai_pending_move := none }

/-- The `Player vs AI` menu button (source lines 138-142): set the mode,
restart, and reset the color-selection flag. -/
def start_pvai (st : GameState) : GameState :=
  { restart { st with game_mode := GMode.playerVsAI } with color_selected := false }

/-- The `White (Second Move)` button of `render_color_selection` (source
lines 99-107): record the choice, have the AI open with black at `(7,7)`,
and pass the turn to white. -/
def choose_white (st : GameState) : GameState :=
  { st with
    player_is_black := false
    color_selected := true
    board_data := updateBoard st.board_data 7 7 1
    is_black := false }

/-- `handle_click`, at cell coordinates `(x,y)` (source lines 208-240): in
AI mode clicks during the AI's turn are ignored; out-of-range or occupied
targets are ignored; otherwise the stone of the side to move is placed, the
win check runs, and either the winner flag is raised or the turn flips. -/
def handle_click (st : GameState) (x y : Nat) : GameState :=
  if st.game_mode = GMode.playerVsAI ∧
      (if st.is_black then (1 : Nat) else 2) = (if st.player_is_black then (2 : Nat) else 1) then
    st
  else if 14 < x ∨ 14 < y ∨ st.board_data x y ≠ 0 then
    st
  else
    let piece_type : Nat := if st.is_black then 1 else 2
    let b' := updateBoard st.board_data x y piece_type
    if check_winner b' x y then
      { st with board_data := b', is_winner := true }
    else
      { st with board_data := b', is_black := !st.is_black }

/-- `ai_move(&mut self, delta_time)` (source lines 338-385). -/
def ai_move (st : GameState) (delta_time : ℚ) : GameState :=
  if st.game_mode ≠ GMode.playerVsAI ∨ st.is_winner then st
  else
    let ai_piece : Nat := if st.player_is_black then 2 else 1
    let current_piece : Nat := if st.is_black then 1 else 2
    if current_piece ≠ ai_piece then st
    else
      match st.ai_pending_move with
      | some (x, y) =>
        let t := st.ai_delay_timer + delta_time
        if (1 : ℚ) / 2 ≤ t then
          let b' := updateBoard st.board_data x y ai_piece
          if check_winner b' x y then
            { st with
              board_data := b'
              is_winner := true
              ai_pending_move := none
              ai_thinking := false
              ai_delay_timer := t }
          else
            { st with
              board_data := b'
              is_black := !st.is_black
              ai_pending_move := none
              ai_thinking := false
              ai_delay_timer := 0 }
        else
          { st with ai_delay_timer := t }
      | none =>
        { st with
          ai_thinking := true
          ai_pending_move := some (find_best_move st.board_data ai_piece
            (if st.player_is_black then 1 else 2))
          ai_delay_timer := 0 }

/-- C2: a placement attempt at an out-of-range coordinate or an occupied
cell is rejected and changes nothing: the whole state — board grid, side to
move, winner flag — is returned untouched. -/
theorem handle_click_rejected (st : GameState) (x y : Nat)
    (h : 14 < x ∨ 14 < y ∨ st.board_data x y ≠ 0) :
    handle_click st x y = st := by
  unfold handle_click
  by_cases h1 : st.game_mode = GMode.playerVsAI ∧
      (if st.is_black then (1 : Nat) else 2) = (if st.player_is_black then (2 : Nat) else 1)
  · rw [if_pos h1]
  · rw [if_neg h1, if_pos h]

theorem handle_click_rejected_witness : handle_click default_state 15 0 = default_state :=
  handle_click_rejected default_state 15 0 (Or.inl (by norm_num))

lemma ai_move_pending_eq (st : GameState) (d : ℚ) (x y : Nat)
    (hm : st.game_mode = GMode.playerVsAI) (hw : st.is_winner = false)
    (hturn : st.is_black ≠ st.player_is_black)
    (hp : st.ai_pending_move = some (x, y)) :
    ai_move st d =
      (if (1 : ℚ) / 2 ≤ st.ai_delay_timer + d then
        (if check_winner (updateBoard st.board_data x y
            (if st.player_is_black then 2 else 1)) x y then
          { st with
            board_data := updateBoard st.board_data x y (if st.player_is_black then 2 else 1)
            is_winner := true
            ai_pending_move := none
            ai_thinking := false
            ai_delay_timer := st.ai_delay_timer + d }
        else
          { st with
            board_data := updateBoard st.board_data x y (if st.player_is_black then 2 else 1)
            is_black := !st.is_black
            ai_pending_move := none
            ai_thinking := false
            ai_delay_timer := 0 })
      else { st with ai_delay_timer := st.ai_delay_timer + d }) := by
  have hcur : (if st.is_black then (1 : Nat) else 2) = (if st.player_is_black then (2 : Nat) else 1) := by
    cases hb : st.is_black <;> cases hpb : st.player_is_black <;> simp_all
  unfold ai_move
  rw [hp, if_neg (by simp [hm, hw])]
  dsimp only
  rw [if_neg (not_not_intro hcur)]

/-- C6: for a pending computer move with accumulated elapsed time `e` and a
tick of `delta` `d`: if `e + d < 0.5` the move is not applied and the state
only records the new elapsed time `e + d`; if `e + d ≥ 0.5` the pending
target is applied exactly like a human move — stone placed, win check run,
then either the winner flag or the turn flipping to the other side — and the
pending move is cleared. -/
theorem ai_move_pending (st : GameState) (d : ℚ) (x y : Nat)
    (hm : st.game_mode = GMode.playerVsAI) (hw : st.is_winner = false)
    (hturn : st.is_black ≠ st.player_is_black)
    (hp : st.ai_pending_move = some (x, y)) :
    (st.ai_delay_timer + d < 1 / 2 →
      ai_move st d = { st with ai_delay_timer := st.ai_delay_timer + d }) ∧
    (1 / 2 ≤ st.ai_delay_timer + d →
      ai_move st d =
        (if check_winner (updateBoard st.board_data x y
            (if st.player_is_black then 2 else 1)) x y then
          { st with
            board_data := updateBoard st.board_data x y (if st.player_is_black then 2 else 1)
            is_winner := true
            ai_pending_move := none
            ai_thinking := false
            ai_delay_timer := st.ai_delay_timer + d }
        else
          { st with
            board_data := updateBoard st.board_data x y (if st.player_is_black then 2 else 1)
            is_black := !st.is_black
            ai_pending_move := none
            ai_thinking := false
            ai_delay_timer := 0 })) := by
  constructor
  · intro hlt
    rw [ai_move_pending_eq st d x y hm hw hturn hp, if_neg (not_le.mpr hlt)]
  · intro hge
    rw [ai_move_pending_eq st d x y hm hw hturn hp, if_pos hge]

/-- A mid-game AI-mode state: black opened at `(7,7)`, it is white's (the
computer's) turn, and the computer has scheduled `(7,8)` with 0.4 time units
already elapsed. -/
def pendingState : GameState where
  game_mode := GMode.playerVsAI
  board_data := updateBoard (fun _ _ => 0) 7 7 1
  is_black := false
  is_winner := false
  player_is_black := true
  ai_thinking := true
  color_selected := true
  ai_delay_timer := 2 / 5
  ai_pending_move := some (7, 8)

theorem ai_move_pending_witness :
    ai_move pendingState (1 / 20)
      = { pendingState with ai_delay_timer := 2 / 5 + 1 / 20 } :=
  (ai_move_pending pendingState (1 / 20) 7 8 rfl rfl (by decide) rfl).1
    (by norm_num [pendingState])

/-- C7: in AI mode, from a fresh session, choosing White for the human
immediately leaves a board whose only stone is a black one at `(7,7)`, with
the turn passed to white. -/
theorem choose_white_fresh :
    (∀ x y, (choose_white (start_pvai default_state)).board_data x y
        = if x = 7 ∧ y = 7 then 1 else 0)
    ∧ (choose_white (start_pvai default_state)).is_black = false
    ∧ (choose_white (start_pvai default_state)).game_mode = GMode.playerVsAI := by
  refine ⟨fun x y => ?_, rfl, rfl⟩
  rfl

/-- The state reached when the pending computer move targets an occupied
cell (which `find_best_move` produces on a full board, where it falls back
to the occupied default `(7,7)`): black holds `(7,7)`, the computer (white)
has `(7,7)` pending and the think delay has elapsed. -/
def overwriteState : GameState where
  game_mode := GMode.playerVsAI
  board_data := updateBoard (fun _ _ => 0) 7 7 1
  is_black := false
  is_winner := false
  player_is_black := true
  ai_thinking := true
  color_selected := true
  ai_delay_timer := 1 / 2
  ai_pending_move := some (7, 7)

/-- C8 counterexample: a computer-move tick can recolor an occupied cell.
In `overwriteState` the cell `(7,7)` holds a black stone (value 1), yet after
the tick it holds a white stone (value 2): the step does not preserve
occupied cells when the pending target is occupied. -/
theorem occupied_cell_overwritten :
    overwriteState.board_data 7 7 = 1 ∧ (ai_move overwriteState 0).board_data 7 7 = 2 := by
  constructor
  · decide
  · rw [ai_move_pending_eq overwriteState 0 7 7 rfl rfl (by decide) rfl,
      if_pos (by norm_num [overwriteState]), if_neg (by decide)]
    decide

/-- C8 amended: each single step — a human move submission or a computer-move
tick — preserves the exact value of every occupied cell, provided the pending
computer move (if any) targets an empty cell (true of every state whose
pending move came from `find_best_move` on a non-full board; the full-board
fallback `(7,7)` is the one exception, per the counterexample). -/
theorem occupied_cells_preserved (st : GameState) (x y : Nat)
    (hocc : st.board_data x y ≠ 0)
    (hpend : ∀ c, st.ai_pending_move = some c → st.board_data c.1 c.2 = 0) :
    (∀ px py, (handle_click st px py).board_data x y = st.board_data x y)
    ∧ (∀ d, (ai_move st d).board_data x y = st.board_data x y) := by
  constructor
  · intro px py
    unfold handle_click
    by_cases g1 : st.game_mode = GMode.playerVsAI ∧
        (if st.is_black then (1 : Nat) else 2) = (if st.player_is_black then (2 : Nat) else 1)
    · rw [if_pos g1]
    · rw [if_neg g1]
      by_cases g2 : 14 < px ∨ 14 < py ∨ st.board_data px py ≠ 0
      · rw [if_pos g2]
      · rw [if_neg g2]
        push_neg at g2
        obtain ⟨-, -, hempty⟩ := g2
        have hne : ¬(x = px ∧ y = py) := by
          rintro ⟨rfl, rfl⟩
          exact hocc hempty
        dsimp only
        split_ifs with hwin <;> simp [updateBoard, hne]
  · intro d
    unfold ai_move
    by_cases g1 : st.game_mode ≠ GMode.playerVsAI ∨ st.is_winner = true
    · rw [if_pos g1]
    · rw [if_neg g1]
      dsimp only
      by_cases g2 : (if st.is_black then (1 : Nat) else 2) ≠ (if st.player_is_black then (2 : Nat) else 1)
      · rw [if_pos g2]
      · rw [if_neg g2]
        cases hpm : st.ai_pending_move with
        | none => rfl
        | some c =>
          obtain ⟨px, py⟩ := c
          have hempty : st.board_data px py = 0 := hpend (px, py) hpm
          have hne : ¬(x = px ∧ y = py) := by
            rintro ⟨rfl, rfl⟩
            exact hocc hempty
          dsimp only
          by_cases g3 : (1 : ℚ) / 2 ≤ st.ai_delay_timer + d
          · rw [if_pos g3]
            split_ifs with hwin <;> simp [updateBoard, hne]
          · rw [if_neg g3]

theorem occupied_cells_preserved_witness :
    (∀ px py, (handle_click pendingState px py).board_data 7 7 = pendingState.board_data 7 7)
    ∧ (∀ d, (ai_move pendingState d).board_data 7 7 = pendingState.board_data 7 7) :=
  occupied_cells_preserved pendingState 7 7 (by decide)
    (fun c hc => by
      have hc2 : (some ((7 : Nat), (8 : Nat)) : Option (Nat × Nat)) = some c := hc
      obtain rfl : ((7 : Nat), (8 : Nat)) = c := Option.some.inj hc2
      decide)

end Gomoku
